import Mathlib

/-!
Verification development for the markdown-to-reST converter in
`sphinx_asdf/md2rst.py`.  The Python module extends the `mistune` markdown
parser with math support (a `BlockLexer`, an `InlineLexer`) and implements an
`RstRenderer` that maps each token kind to a reST text fragment, plus a
`md2rst` entry point.  Pure string-building code is embedded here as Lean
functions over `String` / `List Char`; methods that raise become
`Except PyError` values.
-/

set_option maxHeartbeats 1000000
set_option linter.unusedVariables false

/-! ## Generic string helpers -/

theorem strExt {a b : String} (h : a.data = b.data) : a = b := by
  cases a; cases b; exact congrArg String.mk h

theorem strDataAppend (a b : String) : (a ++ b).data = a.data ++ b.data := rfl

/-- Embedding of Python `str.startswith`: `p` is a prefix of `s`. -/
def isPrefixList : List Char → List Char → Bool
  | [], _ => true
  | _ :: _, [] => false
  | a :: as, b :: bs => if a = b then isPrefixList as bs else false

def pyStartsWith (s p : String) : Bool := isPrefixList p.data s.data

/-- Embedding of Python slicing `s[n:]` (by code points). -/
def pyDrop (s : String) (n : Nat) : String := String.mk (s.data.drop n)

/-- Whether `needle` occurs as a contiguous subsequence of `hay`. -/
def containsList (needle : List Char) : List Char → Bool
  | [] => isPrefixList needle []
  | c :: rest => isPrefixList needle (c :: rest) || containsList needle rest

/-! ## Model of `textwrap.dedent` and the renderer's `_indented` helper -/

def splitNl : List Char → List (List Char)
  | [] => [[]]
  | c :: rest =>
    if c = '\n' then [] :: splitNl rest
    else
      match splitNl rest with
      | [] => [[c]]
      | l :: ls => (c :: l) :: ls

def joinNl : List (List Char) → List Char
  | [] => []
  | [l] => l
  | l :: ls => l ++ '\n' :: joinNl ls

def isWS (c : Char) : Bool := c = ' ' || c = '\t'

/-- `textwrap.dedent` first blanks lines made only of whitespace. -/
def blankWsOnly (line : List Char) : List Char :=
  if line.all isWS then [] else line

def leadingWS (line : List Char) : List Char := line.takeWhile isWS

def lcp : List Char → List Char → List Char
  | a :: as, b :: bs => if a = b then a :: lcp as bs else []
  | _, _ => []

/-- Common leading-whitespace margin of the non-blank lines. -/
def marginOf (lines : List (List Char)) : List Char :=
  match (lines.filter (fun l => !l.isEmpty)).map leadingWS with
  | [] => []
  | ind :: inds => inds.foldl lcp ind

/-- Embedding of `textwrap.dedent`: blank whitespace-only lines, compute the
common leading-whitespace margin of the remaining lines, strip it. -/
def dedent (text : String) : String :=
  let lines := (splitNl text.data).map blankWsOnly
  let margin := marginOf lines
  let out := if margin.isEmpty then lines
             else lines.map (fun l => if isPrefixList margin l then l.drop margin.length else l)
  String.mk (joinNl out)

/-- Embedding of `RstRenderer._indented`: dedent, then prefix every line with
three spaces. -/
def indented (content : String) : String :=
  String.mk (joinNl ((splitNl (dedent content).data).map (fun line => ' ' :: ' ' :: ' ' :: line)))

/-- Embedding of `", ".join(args)`. -/
def joinArgs : List String → String
  | [] => ""
  | [a] => a
  | a :: rest => a ++ ", " ++ joinArgs rest

/-- Embedding of the attribute lines of `RstRenderer._directive`
(`"    :{key}: {val}\n"` per attribute, in order). -/
def attrLines : List (String × String) → String
  | [] => ""
  | (k, v) :: rest => "    :" ++ k ++ ": " ++ v ++ "\n" ++ attrLines rest

/-- Embedding of `RstRenderer._directive`. -/
def directive (name content : String) (args : List String) (attrs : List (String × String)) : String :=
  ".. " ++ name ++ ":: " ++ joinArgs args ++ "\n" ++ attrLines attrs ++ "\n" ++ indented content ++ "\n\n"

/-! ## The renderer

`RstRenderer.__init__` stores the keyword arguments and reads
`kwargs.get("levels", '*=-^"+:~')`; `skip_html` is read from the option dict
with `.get` (absent means falsy). -/

structure Kwargs where
  skip_html : Option Bool := none
  levels : Option String := none

def defaultLevels : String := "*=-^\"+:~"

structure RstRenderer where
  skip_html : Bool
  levels : String
deriving DecidableEq

def RstRenderer.init (kw : Kwargs) : RstRenderer :=
  { skip_html := kw.skip_html.getD false, levels := kw.levels.getD defaultLevels }

/-- A raised Python exception: class name and message. -/
structure PyError where
  name : String
  msg : String
deriving DecidableEq

def notImplementedError : PyError := { name := "NotImplementedError", msg := "" }

def RstRenderer.placeholder : String := ""

/-- `code.rstrip("\n")`. -/
def rstripNl (s : String) : String := String.mk (s.data.reverse.dropWhile (fun c => c = '\n')).reverse

def RstRenderer.block_code (code : String) (lang : Option String) : String :=
  let code := rstripNl code
  let langs := match lang with
    | some l => if l = "" then ["none"] else [l]
    | none => ["none"]
  directive "code-block" code langs []

def RstRenderer.block_quote (text : String) : String := indented text

def RstRenderer.block_html (r : RstRenderer) (html : String) : String :=
  if r.skip_html then "" else directive "raw" html ["html"] []

def RstRenderer.header (r : RstRenderer) (text : String) (level : Nat) : Option String :=
  (r.levels.data.get? level).map
    (fun c => text ++ "\n" ++ String.mk (List.replicate text.length c) ++ "\n\n")

def RstRenderer.hrule : String := "\n\n--------\n\n"

/-- Embedding of Python `str.replace("\n- ", "\n#.")`: left-to-right,
non-overlapping replacement of every occurrence. -/
def replaceMarker : List Char → List Char
  | [] => []
  | [a] => [a]
  | [a, b] => [a, b]
  | a :: b :: c :: rest =>
    if a = '\n' ∧ b = '-' ∧ c = ' ' then '\n' :: '#' :: '.' :: replaceMarker rest
    else a :: replaceMarker (b :: c :: rest)

def RstRenderer.list (body : String) (ordered : Bool) : String :=
  if ordered then String.mk (replaceMarker ('\n' :: body.data)) else body

def RstRenderer.paragraph (text : String) : String := text ++ "\n\n"

def RstRenderer.table (header body : String) : Except PyError String :=
  Except.error notImplementedError

def RstRenderer.table_row (content : String) : Except PyError String :=
  Except.error notImplementedError

def RstRenderer.table_cell (content : String) : Except PyError String :=
  Except.error notImplementedError

def RstRenderer.double_emphasis (text : String) : String := "**" ++ text ++ "**"

def RstRenderer.emphasis (text : String) : String := "*" ++ text ++ "*"

def RstRenderer.codespan (text : String) : String := ":code:`" ++ text ++ "`"

def RstRenderer.linebreak : String := ""

def RstRenderer.strikethrough (text : String) : String := text

def RstRenderer.text (text : String) : String := text

def RstRenderer.autolink (link : String) (is_email : Bool) : String :=
  let text := link
  let link := if is_email then "mailto:" ++ link else link
  if pyStartsWith link "ref:" then ":ref:`" ++ text ++ " <" ++ pyDrop link 4 ++ ">`"
  else "`" ++ text ++ " <" ++ link ++ ">`__"

def RstRenderer.link (link title text : String) : String :=
  let link := if pyStartsWith link "javascript:" then "" else link
  if pyStartsWith link "ref:" then ":ref:`" ++ text ++ " <" ++ pyDrop link 4 ++ ">`"
  else "`" ++ text ++ " <" ++ link ++ ">`__"

def RstRenderer.image (src title text : String) : String :=
  let src := if pyStartsWith src "javascript:" then "" else src
  let attrs := if text = "" then [] else [("alt", text)]
  directive "image" "" [src] attrs

def RstRenderer.tag (r : RstRenderer) (html : String) : String :=
  if r.skip_html then "" else ":raw:`" ++ html ++ "`"

def RstRenderer.newline : String := ""

def RstRenderer.footnote_ref (key : String) (index : Nat) : Except PyError String :=
  Except.error notImplementedError

def RstRenderer.footnote_item (key text : String) : Except PyError String :=
  Except.error notImplementedError

def RstRenderer.footnotes (text : String) : Except PyError String :=
  Except.error notImplementedError

def RstRenderer.math (text : String) : String := ":math:`" ++ text ++ "`"

def RstRenderer.block_math (text : String) : String := directive "math" text [] []

/-- The renderer constructed by the `md2rst` entry point: `RstRenderer()`
with no keyword arguments. -/
def md2rst_renderer : RstRenderer := RstRenderer.init {}

/-! ## Block lexer math extension

`BlockLexer.enable_math` installs `rules.block_math = re.compile(r"^\$\$(.*?)\$\$", re.DOTALL)`
and prepends `"block_math"` to the default rule list.  The regex is anchored at
the current scan position, `.` matches newlines (DOTALL) and `(.*?)` is lazy,
so the interior runs to the FIRST later occurrence of `$$`. -/

/-- Index of the first adjacent `"$$"` pair in a character list. -/
def findDollarDollar : List Char → Option Nat
  | [] => none
  | [_] => none
  | a :: b :: rest =>
    if a = '$' ∧ b = '$' then some 0
    else (findDollarDollar (b :: rest)).map (fun n => n + 1)

/-- Whether an adjacent `"$$"` pair occurs anywhere in the list. -/
def hasDD : List Char → Bool
  | [] => false
  | [_] => false
  | a :: b :: rest => if a = '$' ∧ b = '$' then true else hasDD (b :: rest)

/-- Embedding of matching `^\$\$(.*?)\$\$` (DOTALL) at the start of the input:
on success, the lazily captured interior and the remaining input. -/
def blockMathMatch : List Char → Option (List Char × List Char)
  | a :: b :: rest =>
    if a = '$' ∧ b = '$' then
      (findDollarDollar rest).map (fun i => (rest.take i, rest.drop (i + 2)))
    else none
  | _ => none

/-- Modelled from the spec: the claimed greedy reading of the rule, in which
the interior extends to the LAST closing `$$`.  Used only to compare against
the lazy behaviour of the source's regex. -/
def findDollarDollarLast : List Char → Option Nat
  | [] => none
  | [_] => none
  | a :: b :: rest =>
    match findDollarDollarLast (b :: rest) with
    | some n => some (n + 1)
    | none => if a = '$' ∧ b = '$' then some 0 else none

/-- Modelled from the spec: greedy variant of `blockMathMatch` (interior to the
last closing `$$`), the behaviour the claim asserts. -/
def blockMathMatchSpecGreedy : List Char → Option (List Char × List Char)
  | a :: b :: rest =>
    if a = '$' ∧ b = '$' then
      (findDollarDollarLast rest).map (fun i => (rest.take i, rest.drop (i + 2)))
    else none
  | _ => none

/-- A block token as appended by `BlockLexer.parse_block_math`:
`{"type": "block_math", "text": m.group(1)}`. -/
structure BTok where
  type : String
  text : String
deriving DecidableEq

def BlockLexer.parse_block_math (interior : List Char) : BTok :=
  { type := "block_math", text := String.mk interior }

/-- Trying the `block_math` rule at the current scan position: on a match,
the emitted token and the rest of the input. -/
def BlockLexer.tryBlockMath (s : List Char) : Option (BTok × List Char) :=
  (blockMathMatch s).map (fun pr => (BlockLexer.parse_block_math pr.1, pr.2))

/-- Modelled from the spec: mistune's baseline block rule list (the repository
only prepends to it; the baseline lives in the `mistune` dependency).  All
standard block constructs of section 4.1 are present; only membership and
order relative to `block_math` matter here. -/
def mistuneBlockDefaultRules : List String :=
  ["newline", "hrule", "block_code", "fences", "heading", "nptable", "lheading",
   "block_quote", "list_block", "block_html", "def_links", "def_footnotes",
   "table", "paragraph", "text"]

/-- `BlockLexer.enable_math`: `default_rules = ["block_math"] + mistune.BlockLexer.default_rules`. -/
def BlockLexer.default_rules : List String := "block_math" :: mistuneBlockDefaultRules

/-! ## Inline lexer math extension

`InlineLexer.enable_math` installs
`rules.text = re.compile(r"^[\s\S]+?(?=[\\<!\[_*`~$]|https?://| {2,}\n|$)")` and
`rules.math = re.compile(r"^\$(.+?)\$")`, and prepends `"math"` to the default
rule list. -/

def stopChar (c : Char) : Bool :=
  c = '\\' || c = '<' || c = '!' || c = '[' || c = '_' || c = '*' ||
  c = Char.ofNat 96 || c = '~' || c = '$'

def startsHttp (cs : List Char) : Bool :=
  isPrefixList ("http://".data) cs || isPrefixList ("https://".data) cs

def leadingSpaces : List Char → Nat
  | ' ' :: rest => leadingSpaces rest + 1
  | _ => 0

/-- Whether the suffix matches ` {2,}\n` (two or more spaces then a newline). -/
def spacesNewline (cs : List Char) : Bool :=
  if 2 ≤ leadingSpaces cs then
    match cs.drop (leadingSpaces cs) with
    | '\n' :: _ => true
    | _ => false
  else false

/-- The lookahead of the rewritten `text` rule: stop before a special
character, an URL, a hard line break, or at end of input. -/
def stopHere (cs : List Char) : Bool :=
  match cs with
  | [] => true
  | c :: _ => stopChar c || startsHttp cs || spacesNewline cs

/-- Embedding of the `text` rule `^[\s\S]+?(?=...)`: the shortest nonempty
prefix after which the lookahead holds, plus the remaining input. -/
def textScan : List Char → Option (List Char × List Char)
  | [] => none
  | c :: rest =>
    if stopHere rest then some ([c], rest)
    else
      match textScan rest with
      | some (pre, rem) => some (c :: pre, rem)
      | none => none

/-- First position of a `'$'` in the list, aborting at a newline (the `.` of
`^\$(.+?)\$` does not match `'\n'`); returns the characters before it and the
characters after it. -/
def scanToDollar : List Char → Option (List Char × List Char)
  | [] => none
  | c :: rest =>
    if c = '\n' then none
    else if c = '$' then some ([], rest)
    else (scanToDollar rest).map (fun pr => (c :: pr.1, pr.2))

/-- Embedding of matching `^\$(.+?)\$` at the start of the input: the lazily
captured nonempty single-line interior and the remaining input. -/
def mathMatch : List Char → Option (List Char × List Char)
  | a :: c :: rest =>
    if a = '$' ∧ c ≠ '\n' then (scanToDollar rest).map (fun pr => (c :: pr.1, pr.2))
    else none
  | _ => none

inductive IToken where
  | text (cs : List Char)
  | math (cs : List Char)
deriving DecidableEq

/-- One step of the inline scan: the `math` rule is tried first (it heads the
rule list), then the `text` fallback. -/
def inlineStep (cs : List Char) : Option (IToken × List Char) :=
  match mathMatch cs with
  | some (i, r) => some (IToken.math i, r)
  | none =>
    match textScan cs with
    | some (p, r) => some (IToken.text p, r)
    | none => none

/-- Modelled from the spec: mistune's inline scan loop (section 4.2) — the
repository only installs the rule regexes; the loop that repeatedly applies
the highest-priority matching rule and advances lives in the `mistune`
dependency.  Restricted here to the two rules the repository installs or
rewrites: `math` first, then the `text` fallback.  `none` models the
"no rule matched" error. -/
def inlineLexAux : Nat → List Char → Option (List IToken)
  | _, [] => some []
  | 0, _ :: _ => none
  | Nat.succ fuel, c :: rest =>
    match inlineStep (c :: rest) with
    | some (t, rem) => (inlineLexAux fuel rem).map (fun ts => t :: ts)
    | none => none

def inlineLexMT (cs : List Char) : Option (List IToken) := inlineLexAux cs.length cs

def textPre (cs : List Char) : List Char := ((textScan cs).getD ([], [])).1

def textRest (cs : List Char) : List Char := ((textScan cs).getD ([], [])).2

/-! ## Driver

Modelled from the spec (section 4.4): the driver renders each token of the
block token stream via the renderer and concatenates the fragments in order;
a raised exception aborts the whole conversion, so no partial output is ever
returned.  The loop itself lives in the `mistune` dependency. -/

inductive Tok where
  | header (text : String) (level : Nat)
  | paragraph (text : String)
  | block_code (code : String) (lang : Option String)
  | block_quote (text : String)
  | block_html (html : String)
  | hrule
  | list (body : String) (ordered : Bool)
  | block_math (text : String)
  | table (header body : String)
  | footnote_ref (key : String) (index : Nat)
deriving DecidableEq

/-- Modelled from the spec: dispatch of one token to the renderer.  A renderer
method that raises yields an `Except.error`; an out-of-range header level
models Python's `IndexError` on `levels[level]`. -/
def renderTok (r : RstRenderer) : Tok → Except PyError String
  | Tok.header t l =>
    match r.header t l with
    | some s => Except.ok s
    | none => Except.error { name := "IndexError", msg := "string index out of range" }
  | Tok.paragraph t => Except.ok (RstRenderer.paragraph t)
  | Tok.block_code c lang => Except.ok (RstRenderer.block_code c lang)
  | Tok.block_quote t => Except.ok (RstRenderer.block_quote t)
  | Tok.block_html h => Except.ok (r.block_html h)
  | Tok.hrule => Except.ok RstRenderer.hrule
  | Tok.list b o => Except.ok (RstRenderer.list b o)
  | Tok.block_math t => Except.ok (RstRenderer.block_math t)
  | Tok.table hd bd => RstRenderer.table hd bd
  | Tok.footnote_ref k i => RstRenderer.footnote_ref k i

/-- Modelled from the spec: render every token in order and concatenate; the
first raised exception aborts the conversion with no partial output. -/
def renderTokens (r : RstRenderer) : List Tok → Except PyError String
  | [] => Except.ok ""
  | t :: ts =>
    match renderTok r t with
    | Except.error e => Except.error e
    | Except.ok s =>
      match renderTokens r ts with
      | Except.error e => Except.error e
      | Except.ok rest => Except.ok (s ++ rest)

def exceptIsOk : Except PyError String → Bool
  | Except.ok _ => true
  | Except.error _ => false

/-! ## Helper lemmas -/

theorem isPrefixList_head {a : Char} {p bs : List Char}
    (h : isPrefixList (a :: p) bs = true) : ∃ t, bs = a :: t := by
  cases bs with
  | nil => simp [isPrefixList] at h
  | cons b bs' =>
    by_cases hab : a = b
    · exact ⟨bs', by rw [hab]⟩
    · simp only [isPrefixList, if_neg hab] at h
      simp at h

theorem ref_not_js {u : String} (h : pyStartsWith u "ref:" = true) :
    pyStartsWith u "javascript:" = false := by
  unfold pyStartsWith at h ⊢
  rw [show ("ref:" : String).data = 'r' :: ("ef:" : String).data from rfl] at h
  obtain ⟨tl, htl⟩ := isPrefixList_head h
  rw [show ("javascript:" : String).data = 'j' :: ("avascript:" : String).data from rfl, htl]
  simp only [isPrefixList, if_neg (by decide : ¬ ('j' : Char) = 'r')]

theorem js_not_ref {u : String} (h : pyStartsWith u "javascript:" = true) :
    pyStartsWith u "ref:" = false := by
  unfold pyStartsWith at h ⊢
  rw [show ("javascript:" : String).data = 'j' :: ("avascript:" : String).data from rfl] at h
  obtain ⟨tl, htl⟩ := isPrefixList_head h
  rw [show ("ref:" : String).data = 'r' :: ("ef:" : String).data from rfl, htl]
  simp only [isPrefixList, if_neg (by decide : ¬ ('r' : Char) = 'j')]

def levelChar (r : RstRenderer) (l : Nat) : Char := r.levels.data.getD l ' '

/-! ## Claim theorems -/

/-- Claim C1: for every header text `t` and every level `l` in range of the
glyph sequence, the rendered header is exactly `t`, a newline, the character
`levels[l]` repeated `len t` times, then two newlines; the underline length
equals the character length of `t`, and with the default glyph sequence
`*=-^"+:~` a level-1 header is underlined with `'='`. -/
theorem header_underline_exact (r : RstRenderer) (t : String) (l : Nat)
    (h : l < r.levels.data.length) :
    r.header t l =
      some (t ++ "\n" ++ String.mk (List.replicate t.length (levelChar r l)) ++ "\n\n") ∧
    (String.mk (List.replicate t.length (levelChar r l))).length = t.length ∧
    (r.levels = defaultLevels → l = 1 → levelChar r l = '=') := by
  refine ⟨?_, ?_, ?_⟩
  · have hg : r.levels.data.get? l = some (r.levels.data.get ⟨l, h⟩) := List.get?_eq_get h
    have hd : levelChar r l = r.levels.data.get ⟨l, h⟩ := by
      unfold levelChar
      rw [List.getD_eq_getElem?_getD, ← List.get?_eq_getElem?, hg]
      rfl
    unfold RstRenderer.header
    rw [hg, hd]
    rfl
  · show (List.replicate t.length (levelChar r l)).length = t.length
    simp
  · intro hdef h1
    unfold levelChar
    rw [hdef, h1]
    decide

theorem header_underline_exact_witness :
    (RstRenderer.init {}).header "Title" 1 = some "Title\n=====\n\n" := by
  have h := header_underline_exact (RstRenderer.init {}) "Title" 1 (by decide)
  rw [h.1]
  decide

/-- Claim C5: a link whose target begins with `ref:` renders exactly as a
`:ref:` role with the prefix stripped and no trailing underscores; a link
whose target neither begins with `ref:` nor with the script scheme renders
exactly as an anonymous external hyperlink. -/
theorem link_ref_branching (u ttl t : String) :
    (pyStartsWith u "ref:" = true →
      RstRenderer.link u ttl t = ":ref:`" ++ t ++ " <" ++ pyDrop u 4 ++ ">`") ∧
    (pyStartsWith u "ref:" = false → pyStartsWith u "javascript:" = false →
      RstRenderer.link u ttl t = "`" ++ t ++ " <" ++ u ++ ">`__") := by
  constructor
  · intro h
    unfold RstRenderer.link
    rw [ref_not_js h]
    simp [h]
  · intro h1 h2
    unfold RstRenderer.link
    rw [h2]
    simp [h1]

theorem link_ref_branching_witness :
    RstRenderer.link "ref:some-label" "" "See this" = ":ref:`See this <some-label>`" ∧
    RstRenderer.link "http://example.com" "" "Example" = "`Example <http://example.com>`__" := by
  constructor
  · exact ((link_ref_branching "ref:some-label" "" "See this").1 (by decide)).trans (by decide)
  · exact ((link_ref_branching "http://example.com" "" "Example").2
      (by decide) (by decide)).trans (by decide)

/-- Claim C4 counterexample: an autolink whose target begins with
`javascript:` is NOT defanged by the code — the target is emitted unchanged
as the destination, so the output still contains the scheme, contradicting
the claim that the destination is blanked. -/
theorem autolink_js_not_defanged_cex :
    RstRenderer.autolink "javascript:alert(1)" false =
      "`javascript:alert(1) <javascript:alert(1)>`__" ∧
    RstRenderer.autolink "javascript:alert(1)" false ≠ "`javascript:alert(1) <>`__" ∧
    containsList ("javascript:".data)
      (RstRenderer.autolink "javascript:alert(1)" false).data = true := by
  refine ⟨rfl, by decide, by decide⟩

/-- Claim C4 (amended): `autolink` applies no unsafe-scheme treatment — for a
non-email autolink whose target begins with `javascript:`, both the label and
the destination are the unchanged target. -/
theorem autolink_js_preserved (l : String) (h : pyStartsWith l "javascript:" = true) :
    RstRenderer.autolink l false = "`" ++ l ++ " <" ++ l ++ ">`__" := by
  unfold RstRenderer.autolink
  simp [js_not_ref h]

theorem autolink_js_preserved_witness :
    RstRenderer.autolink "javascript:alert(1)" false =
      "`javascript:alert(1) <javascript:alert(1)>`__" := by
  exact (autolink_js_preserved "javascript:alert(1)" (by decide)).trans (by decide)

/-- Claim C3: a link target or image src beginning with `javascript:` is
blanked before output while the label is kept — the link renders as an
external hyperlink with an empty destination and the original text, and the
image renders an `image` directive with an empty argument plus an `:alt:`
attribute from `text` when `text` is non-empty (and no `:alt:` line when it
is empty), so the destination slot never carries the scheme. -/
theorem script_defang_link_image (l s ttl t : String)
    (hl : pyStartsWith l "javascript:" = true) (hs : pyStartsWith s "javascript:" = true) :
    RstRenderer.link l ttl t = "`" ++ t ++ " <>`__" ∧
    (t ≠ "" → RstRenderer.image s ttl t = ".. image:: \n    :alt: " ++ t ++ "\n\n   \n\n") ∧
    (t = "" → RstRenderer.image s ttl t = ".. image:: \n\n   \n\n") := by
  refine ⟨?_, ?_, ?_⟩
  · unfold RstRenderer.link
    rw [hl]
    simp only [eq_self_iff_true, if_true]
    rw [show pyStartsWith "" "ref:" = false from rfl]
    simp only [Bool.false_eq_true, if_false]
    apply strExt
    simp [strDataAppend, List.append_assoc]
  · intro ht
    unfold RstRenderer.image
    rw [hs]
    simp only [if_true, if_neg ht]
    unfold directive
    rw [show joinArgs [""] = "" from rfl]
    rw [show attrLines [("alt", t)] = "    :" ++ "alt" ++ ": " ++ t ++ "\n" ++ "" from rfl]
    rw [show indented "" = "   " from rfl]
    apply strExt
    simp [strDataAppend, List.append_assoc]
  · intro ht
    subst ht
    unfold RstRenderer.image
    rw [hs]
    simp only [eq_self_iff_true, if_true]
    decide

theorem script_defang_link_image_witness :
    RstRenderer.link "javascript:alert(1)" "" "x" = "`x <>`__" ∧
    RstRenderer.image "javascript:alert(1)" "" "x" = ".. image:: \n    :alt: x\n\n   \n\n" ∧
    RstRenderer.image "javascript:alert(1)" "" "" = ".. image:: \n\n   \n\n" := by
  refine ⟨?_, ?_, ?_⟩
  · exact ((script_defang_link_image "javascript:alert(1)" "javascript:alert(1)" "" "x"
      (by decide) (by decide)).1).trans (by decide)
  · exact ((script_defang_link_image "javascript:alert(1)" "javascript:alert(1)" "" "x"
      (by decide) (by decide)).2.1 (by decide)).trans (by decide)
  · exact (script_defang_link_image "javascript:alert(1)" "javascript:alert(1)" "" ""
      (by decide) (by decide)).2.2 rfl

/-- Claim C8: with `skip_html` set, a raw-HTML block and an inline raw tag
both render as the empty string; with `skip_html` unset, the block renders a
`raw:: html` directive wrapping the HTML and the inline tag renders a `:raw:`
role wrapping it. -/
theorem skip_html_toggle (r : RstRenderer) (html : String) :
    (r.skip_html = true → r.block_html html = "" ∧ r.tag html = "") ∧
    (r.skip_html = false →
      r.block_html html = ".. raw:: html\n\n" ++ indented html ++ "\n\n" ∧
      r.tag html = ":raw:`" ++ html ++ "`") := by
  constructor
  · intro h
    unfold RstRenderer.block_html RstRenderer.tag
    rw [h]
    exact ⟨rfl, rfl⟩
  · intro h
    unfold RstRenderer.block_html RstRenderer.tag
    rw [h]
    refine ⟨?_, rfl⟩
    simp only [Bool.false_eq_true, if_false]
    unfold directive
    rw [show joinArgs ["html"] = "html" from rfl]
    rw [show attrLines [] = "" from rfl]
    apply strExt
    simp [strDataAppend, List.append_assoc]

theorem skip_html_toggle_witness :
    (RstRenderer.init { skip_html := some true }).block_html "<p>hi</p>" = "" ∧
    (RstRenderer.init { skip_html := some true }).tag "<b>x</b>" = "" ∧
    (RstRenderer.init {}).block_html "<p>hi</p>" = ".. raw:: html\n\n   <p>hi</p>\n\n" ∧
    (RstRenderer.init {}).tag "<b>x</b>" = ":raw:`<b>x</b>`" := by
  refine ⟨?_, ?_, ?_, ?_⟩
  · exact ((skip_html_toggle (RstRenderer.init { skip_html := some true }) "<p>hi</p>").1 rfl).1
  · exact ((skip_html_toggle (RstRenderer.init { skip_html := some true }) "<b>x</b>").1 rfl).2
  · exact (((skip_html_toggle (RstRenderer.init {}) "<p>hi</p>").2 rfl).1).trans (by decide)
  · exact ((skip_html_toggle (RstRenderer.init {}) "<b>x</b>").2 rfl).2

/-- Claim C10: the `md2rst` entry point constructs `RstRenderer()` with no
keyword arguments, so every conversion runs with `skip_html` false and the
default header glyph sequence `*=-^"+:~` (whose level-1 glyph is `'='`); raw
HTML is therefore always rendered, never skipped. -/
theorem md2rst_default_options (html : String) :
    md2rst_renderer = RstRenderer.init { skip_html := none, levels := none } ∧
    md2rst_renderer.skip_html = false ∧
    md2rst_renderer.levels = "*=-^\"+:~" ∧
    md2rst_renderer.levels.data.getD 1 ' ' = '=' ∧
    md2rst_renderer.block_html html = directive "raw" html ["html"] [] ∧
    md2rst_renderer.tag html = ":raw:`" ++ html ++ "`" := by
  refine ⟨rfl, rfl, rfl, rfl, rfl, rfl⟩

/-- Whether an occurrence of `"\n- "` exists in the text. -/
def hasMarker : List Char → Bool
  | [] => false
  | [_] => false
  | [_, _] => false
  | a :: b :: c :: rest =>
    if a = '\n' ∧ b = '-' ∧ c = ' ' then true else hasMarker (b :: c :: rest)

theorem replaceMarker_id : ∀ cs, hasMarker cs = false → replaceMarker cs = cs
  | [], _ => rfl
  | [_], _ => rfl
  | [_, _], _ => rfl
  | a :: b :: c :: rest, h => by
    by_cases hm : a = '\n' ∧ b = '-' ∧ c = ' '
    · simp only [hasMarker, if_pos hm] at h
      exact absurd h (by simp)
    · simp only [hasMarker, if_neg hm] at h
      simp only [replaceMarker, if_neg hm]
      rw [replaceMarker_id (b :: c :: rest) h]

/-- Modelled from the spec: the claimed list rewriting — each item's leading
`- ` marker rewritten to `#.` with nothing else changed (in particular no
prepended newline). -/
def listSpecRewrite (body : String) : String :=
  String.mk ((replaceMarker ('\n' :: body.data)).drop 1)

/-- Claim C9 counterexample: for the already-rendered body `"- a\n"` the code
returns `"\n#.a\n"` — a newline is prepended and survives in the output —
whereas the claim's predicted output (the body with only the marker
rewritten, nothing else changed) is `"#.a\n"`. -/
theorem list_prepends_newline_cex :
    RstRenderer.list "- a\n" true = "\n#.a\n" ∧
    listSpecRewrite "- a\n" = "#.a\n" ∧
    RstRenderer.list "- a\n" true ≠ listSpecRewrite "- a\n" := by
  exact ⟨by decide, by decide, by decide⟩

/-- Claim C9 (amended): an unordered list passes the body through unchanged;
an ordered list returns a newline followed by the body in which every
occurrence of `"\n- "` is rewritten to `"\n#."` (so each item marker that
follows a line break — including one at the very start, thanks to the
prepended newline — is rewritten); text with no such occurrence is left
unchanged by the rewrite. -/
theorem list_rewrite_amended (b : String) (cs : List Char) (h : hasMarker cs = false) :
    RstRenderer.list b false = b ∧
    RstRenderer.list b true = String.mk (replaceMarker ('\n' :: b.data)) ∧
    replaceMarker cs = cs ∧
    replaceMarker ('\n' :: '-' :: ' ' :: cs) = '\n' :: '#' :: '.' :: cs := by
  refine ⟨rfl, rfl, replaceMarker_id cs h, ?_⟩
  simp [replaceMarker, replaceMarker_id cs h]

theorem list_rewrite_amended_witness :
    RstRenderer.list "- a\n\n- b\n\n" false = "- a\n\n- b\n\n" ∧
    RstRenderer.list "- a\n\n- b\n\n" true = "\n#.a\n\n#.b\n\n" ∧
    replaceMarker ('\n' :: '-' :: ' ' :: "x- y".data) = '\n' :: '#' :: '.' :: "x- y".data := by
  have h := list_rewrite_amended "- a\n\n- b\n\n" "x- y".data (by decide)
  exact ⟨h.1, h.2.1.trans (by decide), h.2.2.2⟩

theorem renderTokens_no_ok {r : RstRenderer} {hd bd : String} :
    ∀ ts : List Tok, Tok.table hd bd ∈ ts → exceptIsOk (renderTokens r ts) = false := by
  intro ts
  induction ts with
  | nil => intro h; cases h
  | cons t ts ih =>
    intro h
    rcases List.mem_cons.mp h with h1 | h2
    · rw [← h1]
      rfl
    · have hts := ih h2
      show exceptIsOk (renderTokens r (t :: ts)) = false
      unfold renderTokens
      cases hr : renderTok r t with
      | error e => rfl
      | ok s =>
        cases hrt : renderTokens r ts with
        | error e => rfl
        | ok rest =>
          rw [hrt] at hts
          exact absurd hts (by simp [exceptIsOk])

/-- Claim C2 counterexample: the renderer rejects a table by raising a bare
`NotImplementedError()` whose error value is identical to the one raised for
a footnote reference and whose message is empty — the failure does not report
which construct kind was encountered (no error condition naming "table"). -/
theorem table_error_unnamed_cex :
    RstRenderer.table "x" "y" = Except.error { name := "NotImplementedError", msg := "" } ∧
    RstRenderer.table "x" "y" = RstRenderer.footnote_ref "z" 0 ∧
    containsList ("table".data) ("".data) = false ∧
    containsList ("table".data) ("NotImplementedError".data) = false := by
  exact ⟨rfl, rfl, by decide, by decide⟩

/-- Claim C2 (amended): a document containing a table (or footnote) construct
never converts successfully — the renderer raises `NotImplementedError`, the
conversion yields no partial reST output — but the raised error carries an
empty message and does not name the construct kind encountered. -/
theorem unsupported_construct_aborts (r : RstRenderer) (ts : List Tok) (hd bd k : String)
    (n : Nat) (h : Tok.table hd bd ∈ ts) :
    exceptIsOk (renderTokens r ts) = false ∧
    RstRenderer.table hd bd = Except.error notImplementedError ∧
    RstRenderer.footnote_ref k n = Except.error notImplementedError ∧
    notImplementedError.msg = "" := by
  exact ⟨renderTokens_no_ok ts h, rfl, rfl, rfl⟩

theorem unsupported_construct_aborts_witness :
    exceptIsOk (renderTokens (RstRenderer.init {})
      [Tok.paragraph "p", Tok.table "h" "b", Tok.footnote_ref "k" 1]) = false := by
  exact (unsupported_construct_aborts (RstRenderer.init {})
    [Tok.paragraph "p", Tok.table "h" "b", Tok.footnote_ref "k" 1] "h" "b" "k" 1
    (by decide)).1

theorem take_len : ∀ (i X : List Char), List.take i.length (i ++ X) = i
  | [], X => rfl
  | c :: i', X => by
    simp only [List.length_cons, List.cons_append, List.take_succ_cons]
    rw [take_len i' X]

theorem drop_shift : ∀ (i X : List Char) (n : Nat), List.drop (i.length + n) (i ++ X) = List.drop n X
  | [], X, n => by simp
  | c :: i', X, n => by
    simp only [List.length_cons, List.cons_append]
    rw [show i'.length + 1 + n = (i'.length + n) + 1 from by omega]
    rw [List.drop_succ_cons]
    exact drop_shift i' X n

theorem findDD_append : ∀ (i r : List Char), hasDD (i ++ ['$']) = false →
    findDollarDollar (i ++ '$' :: '$' :: r) = some i.length
  | [], r, _ => by
    simp only [List.nil_append, List.length_nil]
    simp [findDollarDollar]
  | [c], r, h => by
    simp only [List.cons_append, List.nil_append] at h ⊢
    by_cases hc : c = '$'
    · subst hc
      simp [hasDD] at h
    · simp [findDollarDollar, hc]
  | a :: b :: i', r, h => by
    simp only [List.cons_append] at h ⊢
    by_cases hab : a = '$' ∧ b = '$'
    · simp [hasDD, hab] at h
    · simp only [hasDD, if_neg hab] at h
      simp only [findDollarDollar, if_neg hab]
      have ih := findDD_append (b :: i') r (by simpa using h)
      simp only [List.cons_append] at ih
      rw [ih]
      simp [List.length_cons]

/-- Claim C6 counterexample: the source's rule `^\$\$(.*?)\$\$` is lazy, not
greedy — on input `$$a$$b$$` it captures interior `a` (up to the FIRST
closing `$$`), while the claimed greedy match extends to the last closing
`$$` and captures `a$$b`. -/
theorem block_math_lazy_cex :
    blockMathMatch ("$$a$$b$$".data) = some ("a".data, "b$$".data) ∧
    blockMathMatchSpecGreedy ("$$a$$b$$".data) = some ("a$$b".data, ([] : List Char)) ∧
    ("a".data, "b$$".data) ≠ (("a$$b".data : List Char), ([] : List Char)) := by
  exact ⟨by decide, by decide, by decide⟩

/-- Claim C6 (amended): the `block_math` rule matches `$$`-delimited text
whose interior may span multiple lines, but the match is NON-greedy — it
extends to the first closing `$$`; the rule heads the rule list, before every
standard block rule, and on a match it emits a token of kind `block_math`
whose payload is the interior with the delimiters stripped. -/
theorem block_math_rule_amended (i r : List Char) (h : hasDD (i ++ ['$']) = false) :
    BlockLexer.default_rules.head? = some "block_math" ∧
    (∀ ru ∈ mistuneBlockDefaultRules,
      List.indexOf "block_math" BlockLexer.default_rules <
        List.indexOf ru BlockLexer.default_rules) ∧
    BlockLexer.tryBlockMath ('$' :: '$' :: (i ++ '$' :: '$' :: r)) =
      some (BTok.mk "block_math" (String.mk i), r) := by
  refine ⟨rfl, by decide, ?_⟩
  unfold BlockLexer.tryBlockMath
  have hbm : blockMathMatch ('$' :: '$' :: (i ++ '$' :: '$' :: r)) =
      (findDollarDollar (i ++ '$' :: '$' :: r)).map
        (fun n => ((i ++ '$' :: '$' :: r).take n, (i ++ '$' :: '$' :: r).drop (n + 2))) := by
    simp [blockMathMatch]
  rw [hbm]
  rw [findDD_append i r h]
  simp only [Option.map_some']
  rw [take_len i ('$' :: '$' :: r), drop_shift i ('$' :: '$' :: r) 2]
  rfl

theorem block_math_rule_amended_witness :
    hasDD ("x\ny$".data) = false ∧
    BlockLexer.tryBlockMath ('$' :: '$' :: ("x\ny".data ++ '$' :: '$' :: "z".data)) =
      some (BTok.mk "block_math" "x\ny", "z".data) := by
  refine ⟨by decide, ?_⟩
  exact (block_math_rule_amended ("x\ny".data) ("z".data) (by decide)).2.2.trans (by decide)

theorem scanToDollar_length : ∀ cs, ∀ i r : List Char, scanToDollar cs = some (i, r) →
    i.length + 1 + r.length = cs.length := by
  intro cs
  induction cs with
  | nil => intro i r h; simp [scanToDollar] at h
  | cons c rest ih =>
    intro i r h
    simp only [scanToDollar] at h
    by_cases h1 : c = '\n'
    · simp [h1] at h
    · rw [if_neg h1] at h
      by_cases h2 : c = '$'
      · rw [if_pos h2] at h
        simp only [Option.some.injEq, Prod.mk.injEq] at h
        obtain ⟨hi, hr⟩ := h
        subst hi; subst hr
        simp only [List.length_nil, List.length_cons]
        omega
      · rw [if_neg h2] at h
        cases hs : scanToDollar rest with
        | none => rw [hs] at h; simp at h
        | some pr =>
          obtain ⟨p1, p2⟩ := pr
          rw [hs] at h
          simp only [Option.map_some', Option.some.injEq, Prod.mk.injEq] at h
          obtain ⟨hi, hr⟩ := h
          subst hi; subst hr
          have := ih p1 p2 hs
          simp only [List.length_cons]
          omega

theorem mathMatch_length : ∀ cs, ∀ i r : List Char, mathMatch cs = some (i, r) →
    r.length < cs.length := by
  intro cs i r h
  cases cs with
  | nil => simp [mathMatch] at h
  | cons a cs' =>
    cases cs' with
    | nil => simp [mathMatch] at h
    | cons c rest =>
      simp only [mathMatch] at h
      by_cases hc : a = '$' ∧ c ≠ '\n'
      · rw [if_pos hc] at h
        cases hs : scanToDollar rest with
        | none => rw [hs] at h; simp at h
        | some pr =>
          obtain ⟨p1, p2⟩ := pr
          rw [hs] at h
          simp only [Option.map_some', Option.some.injEq, Prod.mk.injEq] at h
          obtain ⟨hi, hr⟩ := h
          subst hi; subst hr
          have := scanToDollar_length rest p1 p2 hs
          simp only [List.length_cons]
          omega
      · rw [if_neg hc] at h
        simp at h

theorem textScan_shape : ∀ c : Char, ∀ rest : List Char,
    ∃ p r : List Char, textScan (c :: rest) = some (c :: p, r) ∧
      (c :: p).length + r.length = (c :: rest).length := by
  intro c rest
  induction rest generalizing c with
  | nil =>
    refine ⟨[], [], ?_, by simp⟩
    simp [textScan, stopHere]
  | cons d rest' ih =>
    by_cases hstop : stopHere (d :: rest') = true
    · refine ⟨[], d :: rest', ?_, ?_⟩
      · simp [textScan, hstop]
      · simp only [List.length_cons, List.length_nil]
        omega
    · obtain ⟨p, r, hts, hlen⟩ := ih d
      refine ⟨d :: p, r, ?_, ?_⟩
      · unfold textScan
        rw [if_neg hstop, hts]
      · simp only [List.length_cons] at hlen ⊢
        omega

theorem inlineStep_dec : ∀ cs : List Char, ∀ t : IToken, ∀ rem : List Char,
    inlineStep cs = some (t, rem) → rem.length < cs.length := by
  intro cs t rem h
  unfold inlineStep at h
  cases hm : mathMatch cs with
  | some pr =>
    obtain ⟨p1, p2⟩ := pr
    rw [hm] at h
    simp only [Option.some.injEq, Prod.mk.injEq] at h
    obtain ⟨ht, hr⟩ := h
    subst hr
    exact mathMatch_length cs p1 p2 hm
  | none =>
    rw [hm] at h
    cases cs with
    | nil => simp [textScan] at h
    | cons c rest =>
      obtain ⟨p, r, hts, hlen⟩ := textScan_shape c rest
      rw [hts] at h
      simp only [Option.some.injEq, Prod.mk.injEq] at h
      obtain ⟨ht, hr⟩ := h
      subst hr
      simp only [List.length_cons] at hlen ⊢
      omega

theorem inlineStep_total : ∀ c : Char, ∀ rest : List Char,
    ∃ t rem, inlineStep (c :: rest) = some (t, rem) := by
  intro c rest
  unfold inlineStep
  cases hm : mathMatch (c :: rest) with
  | some pr => exact ⟨IToken.math pr.1, pr.2, rfl⟩
  | none =>
    obtain ⟨p, r, hts, hlen⟩ := textScan_shape c rest
    rw [hts]
    exact ⟨IToken.text (c :: p), r, rfl⟩

theorem inlineLexAux_fuel : ∀ f g : Nat, ∀ cs : List Char,
    cs.length ≤ f → cs.length ≤ g → inlineLexAux f cs = inlineLexAux g cs := by
  intro f
  induction f with
  | zero =>
    intro g cs hf hg
    cases cs with
    | nil => cases g <;> rfl
    | cons c rest => simp at hf
  | succ f' ih =>
    intro g cs hf hg
    cases cs with
    | nil => cases g <;> rfl
    | cons c rest =>
      cases g with
      | zero => simp at hg
      | succ g' =>
        show inlineLexAux (f' + 1) (c :: rest) = inlineLexAux (g' + 1) (c :: rest)
        simp only [inlineLexAux]
        obtain ⟨t, rem, hstep⟩ := inlineStep_total c rest
        rw [hstep]
        have hdec := inlineStep_dec (c :: rest) t rem hstep
        simp only [List.length_cons] at hf hg hdec
        show Option.map (fun ts => t :: ts) (inlineLexAux f' rem) =
          Option.map (fun ts => t :: ts) (inlineLexAux g' rem)
        rw [ih g' rem (by omega) (by omega)]

theorem inlineLexAux_total : ∀ f : Nat, ∀ cs : List Char, cs.length ≤ f →
    (inlineLexAux f cs).isSome = true := by
  intro f
  induction f with
  | zero =>
    intro cs hf
    cases cs with
    | nil => rfl
    | cons c rest => simp at hf
  | succ f' ih =>
    intro cs hf
    cases cs with
    | nil => rfl
    | cons c rest =>
      simp only [inlineLexAux]
      obtain ⟨t, rem, hstep⟩ := inlineStep_total c rest
      rw [hstep]
      have hdec := inlineStep_dec (c :: rest) t rem hstep
      simp only [List.length_cons] at hf hdec
      show (Option.map (fun ts => t :: ts) (inlineLexAux f' rem)).isSome = true
      have hsome := ih rem (by omega)
      cases hr : inlineLexAux f' rem with
      | none => rw [hr] at hsome; simp at hsome
      | some ts => rfl

/-- Claim C7: a `$` with no closing `$` before the text-stop boundary is not
an error — the inline scan always succeeds (no "no rule matched" condition),
and when the math rule fails at a `$` the scan emits an ordinary text token
that starts with that `$` and continues with the rest of the input; likewise
an unterminated `$$` block simply fails the `block_math` rule (no error
value). -/
theorem unmatched_dollar_is_text (ds es : List Char)
    (h1 : mathMatch ('$' :: ds) = none) (h2 : findDollarDollar es = none) :
    (inlineLexMT ('$' :: ds)).isSome = true ∧
    textScan ('$' :: ds) = some (textPre ('$' :: ds), textRest ('$' :: ds)) ∧
    (textPre ('$' :: ds)).head? = some '$' ∧
    inlineLexMT ('$' :: ds) =
      (inlineLexMT (textRest ('$' :: ds))).map
        (fun ts => IToken.text (textPre ('$' :: ds)) :: ts) ∧
    blockMathMatch ('$' :: '$' :: es) = none := by
  obtain ⟨p, r, hts, hlen⟩ := textScan_shape '$' ds
  have hpre : textPre ('$' :: ds) = '$' :: p := by simp [textPre, hts]
  have hrest : textRest ('$' :: ds) = r := by simp [textRest, hts]
  have hstep : inlineStep ('$' :: ds) = some (IToken.text ('$' :: p), r) := by
    unfold inlineStep
    rw [h1, hts]
  have hlen' : r.length ≤ ds.length := by
    simp only [List.length_cons] at hlen
    omega
  refine ⟨inlineLexAux_total _ _ le_rfl, ?_, ?_, ?_, ?_⟩
  · rw [hpre, hrest, hts]
  · rw [hpre]; rfl
  · rw [hrest, hpre]
    unfold inlineLexMT
    rw [show ('$' :: ds).length = ds.length + 1 from rfl]
    simp only [inlineLexAux]
    rw [hstep]
    show Option.map (fun ts => IToken.text ('$' :: p) :: ts) (inlineLexAux ds.length r) =
      Option.map (fun ts => IToken.text ('$' :: p) :: ts) (inlineLexAux r.length r)
    rw [inlineLexAux_fuel ds.length r.length r hlen' le_rfl]
  · have hbm : blockMathMatch ('$' :: '$' :: es) =
        (findDollarDollar es).map (fun i => (es.take i, es.drop (i + 2))) := by
      simp [blockMathMatch]
    rw [hbm, h2]
    rfl

theorem unmatched_dollar_is_text_witness :
    mathMatch ('$' :: "abc".data) = none ∧
    findDollarDollar "x".data = none ∧
    inlineLexMT ('$' :: "abc".data) = some [IToken.text ('$' :: "abc".data)] ∧
    blockMathMatch ('$' :: '$' :: "x".data) = none := by
  have h := unmatched_dollar_is_text "abc".data "x".data (by decide) (by decide)
  refine ⟨by decide, by decide, ?_, h.2.2.2.2⟩
  rw [h.2.2.2.1]
  decide
